import Mathlib

/-!
Verification of the True Modules port layer against its design
specification.  The repository ships only the port trait declarations
(`src/runtimes/rust/ports/src/lib.rs`); the behaviour of each port is
given by the accompanying design document.  Declarations that embed the
trait declarations themselves are translated from the Rust source;
behavioural definitions are modelled from the specification and say so
in their doc comments.  Rust `PathBuf` values are modelled as `String`.

The file is organised as definitions first, then the theorems.
-/

namespace TrueModules

/-! ## Definitions: PathSafety -/

/-- Modelled from the spec: the error taxonomy of PathSafety.
`invalidPath` signals a traversal/escape attempt; `notFound` a missing
required component.  The pure normalization mode modelled here (the
scaffold's `normalize_path` takes no filesystem handle) never demands
existence, so only `invalidPath` is produced. -/
inductive PathError
  | invalidPath
  | notFound
  deriving DecidableEq

/-- Modelled from the spec: split a raw path string into segments at the
separator character, accumulating the current segment in reverse. -/
def splitSegsAux : List Char → List Char → List String
  | [], cur => [String.mk cur.reverse]
  | c :: cs, cur =>
    if c = '/' then String.mk cur.reverse :: splitSegsAux cs []
    else splitSegsAux cs (c :: cur)

/-- Segments of a raw path string. -/
def segsOf (p : String) : List String :=
  splitSegsAux p.data []

/-- Modelled from the spec: resolve the segments of a relative path over a
stack of already-accepted components.  `"."` and empty segments (redundant
separators) are collapsed, `".."` pops the stack and fails when the stack
is empty (the path would escape the root boundary), and any other segment
is pushed. -/
def resolveSegs : List String → List String → Option (List String)
  | [], stack => some stack
  | s :: rest, stack =>
    if s = "." ∨ s = "" then resolveSegs rest stack
    else if s = ".." then
      match stack with
      | [] => none
      | _ :: st => resolveSegs rest st
    else resolveSegs rest (s :: stack)

/-- Modelled from the spec: `normalize(root, input)` resolves `input`
relative to `root`, collapses `.`/`..` segments, and fails with
`InvalidPath` if the resolved path would fall outside the boundary of
`root`. -/
def normalize (root p : String) : Except PathError String :=
  match resolveSegs (segsOf p) [] with
  | none => Except.error PathError.invalidPath
  | some stack => Except.ok (String.intercalate "/" (root :: stack.reverse))

/-- Depth-counting safety check: tracks how many real components are on
the stack and rejects a `".."` that would pop past the root. -/
def isSafeGo : List String → Nat → Bool
  | [], _ => true
  | s :: rest, d =>
    if s = "." ∨ s = "" then isSafeGo rest d
    else if s = ".." then decide (d ≠ 0) && isSafeGo rest (d - 1)
    else isSafeGo rest (d + 1)

/-- Modelled from the spec: `is_safe(root, input)` is a pure, total,
never-failing predicate used for fast pre-filtering; it must return
`false` for exactly the inputs `normalize` rejects. -/
def is_safe (root p : String) : Bool :=
  isSafeGo (segsOf p) 0

/-- A path contains a `..` segment that would resolve outside the root:
some `..` segment occurs at a point where every previously accepted
component has already been popped. -/
def EscapesDotdot (p : String) : Prop :=
  ∃ pre post, segsOf p = pre ++ ".." :: post ∧ resolveSegs pre [] = some []

/-! ## Definitions: Index -/

/-- Modelled from the spec: the classification the Index keeps for each
tracked path. -/
inductive Status
  | staged
  | unstaged
  | untracked
  deriving DecidableEq

/-- Modelled from the spec: IndexState maps each path to a status,
mutated exclusively through stage/unstage. -/
abbrev IndexState := String → Status

/-- Modelled from the spec: a batch path is acceptable when it passes the
PathSafety gate and the file exists (`fs` lists the existing files). -/
def validPath (root : String) (fs : List String) (p : String) : Bool :=
  is_safe root p && decide (p ∈ fs)

/-- Mark a single path staged. -/
def stageOne (s : IndexState) (p : String) : IndexState :=
  fun q => if q = p then Status.staged else s q

/-- Modelled from the spec: unstaging a path not currently staged is a
no-op for that path; a staged path becomes unstaged. -/
def unstageOne (s : IndexState) (p : String) : IndexState :=
  fun q =>
    if q = p then (if s q = Status.staged then Status.unstaged else s q)
    else s q

def stageAll (st : IndexState) (ps : List String) : IndexState :=
  ps.foldl stageOne st

def unstageAll (st : IndexState) (ps : List String) : IndexState :=
  ps.foldl unstageOne st

/-- Modelled from the spec: `stage(paths)` marks every batch path staged;
it fails atomically, with no mutation, when any path is unsafe or does
not exist. -/
def stage (root : String) (fs : List String) (st : IndexState)
    (ps : List String) : Except String IndexState :=
  if ps.all (validPath root fs) then Except.ok (stageAll st ps)
  else Except.error "invalid or missing path in batch"

/-- Modelled from the spec: `unstage(paths)`, the inverse batch operation
with the same all-or-nothing semantics. -/
def unstage (root : String) (fs : List String) (st : IndexState)
    (ps : List String) : Except String IndexState :=
  if ps.all (validPath root fs) then Except.ok (unstageAll st ps)
  else Except.error "invalid or missing path in batch"

/-- The state a caller holds after a stage call: the new state on
success, the old state untouched on error. -/
def stageRun (root : String) (fs : List String) (st : IndexState)
    (ps : List String) : IndexState :=
  ((stage root fs st ps).toOption).getD st

/-- The state a caller holds after an unstage call. -/
def unstageRun (root : String) (fs : List String) (st : IndexState)
    (ps : List String) : IndexState :=
  ((unstage root fs st ps).toOption).getD st

/-! ## Definitions: DiffEngine -/

/-- Modelled from the spec: the per-path change kinds a diff reports.
Unchanged paths are omitted from the result. -/
inductive Change
  | added
  | modified
  | deleted
  deriving DecidableEq

/-- Modelled from the spec: the diff error taxonomy; `pathRejected`
models the spec's PathUnsafe (a spec path failing PathSafety
validation). -/
inductive DiffError
  | pathRejected
  | unreadable
  deriving DecidableEq

/-- From the source: `DiffSpec` holds an ordered sequence of paths
restricting the diff scope (empty means the whole tree); `PathBuf` is
modelled as `String`. -/
structure DiffSpec where
  paths : List String

/-- Modelled from the spec: the state the DiffEngine reads — the engine
root, the tracked paths (already normalized), and the baseline and
working-tree content of each path (`none` means absent). -/
structure DiffEngine where
  root : String
  tracked : List String
  base : String → Option String
  work : String → Option String

/-- Modelled from the spec: classify one path by comparing working
content against the baseline; `none` means Unchanged (omitted). -/
def classify (eng : DiffEngine) (p : String) : Option Change :=
  match eng.base p, eng.work p with
  | none, some _ => some Change.added
  | some b, some w => if b = w then none else some Change.modified
  | some _, none => some Change.deleted
  | none, none => none

/-- Normalize every spec path, failing when any path is rejected by
PathSafety. -/
def normalizeAll (root : String) : List String → Except DiffError (List String)
  | [] => Except.ok []
  | p :: ps =>
    match normalize root p with
    | Except.error _ => Except.error DiffError.pathRejected
    | Except.ok q =>
      match normalizeAll root ps with
      | Except.error e => Except.error e
      | Except.ok qs => Except.ok (q :: qs)

/-- Modelled from the spec: `diff(spec)` targets the spec paths (or all
tracked paths when the spec is empty), deduplicates them, sorts them
lexicographically by normalized path, classifies each against the
baseline and omits the Unchanged entries. -/
def diff (eng : DiffEngine) (spec : DiffSpec) :
    Except DiffError (List (String × Change)) :=
  match (if spec.paths = [] then Except.ok eng.tracked
         else normalizeAll eng.root spec.paths) with
  | Except.error e => Except.error e
  | Except.ok ts =>
    Except.ok
      (((ts.dedup).insertionSort (· ≤ ·)).filterMap
        (fun p => (classify eng p).map (fun k => (p, k))))

/-- A concrete diff engine used to instantiate the diff theorem:
`a.txt` is tracked and modified, `b.txt` is tracked (twice) and newly
added. -/
def engW : DiffEngine where
  root := "repo"
  tracked := ["b.txt", "a.txt", "b.txt"]
  base := fun p => if p = "a.txt" then some "old" else none
  work := fun p =>
    if p = "a.txt" then some "new"
    else if p = "b.txt" then some "x" else none

/-! ## Definitions: WorktreeManager -/

/-- Modelled from the spec: the worktree error taxonomy. -/
inductive WtError
  | nameInvalid
  | alreadyExists
  | invalidPath
  | notEmpty
  | ioError
  deriving DecidableEq

/-- From the source: `WorktreeRef` holds the public root path of an
exclusively-owned working directory; `PathBuf` is modelled as
`String`. -/
structure WorktreeRef where
  root : String
  deriving DecidableEq

/-- Modelled from the spec: a worktree name is invalid when it contains
a path-separator or traversal characters. -/
def nameOk (n : String) : Bool :=
  !(n.data.contains '/') && !(n.data.contains '\\')
    && decide (n ≠ "..") && decide (n ≠ ".") && decide (n ≠ "")

/-- The directory a worktree named `name` under `base` occupies. -/
def childPath (base name : String) : String :=
  base ++ "/" ++ name

/-- Modelled from the spec: `create(base, name)` fails with
`NameInvalid` on a malformed name, with `AlreadyExists` when the target
directory is already present, validates `base` through PathSafety, and
otherwise creates the directory (`dirs` lists the existing directories)
and returns an exclusive WorktreeRef. -/
def wtCreate (dirs : List String) (base name : String) :
    Except WtError (WorktreeRef × List String) :=
  if nameOk name = false then Except.error WtError.nameInvalid
  else if childPath base name ∈ dirs then
    Except.error WtError.alreadyExists
  else if is_safe base base = false then Except.error WtError.invalidPath
  else Except.ok (⟨childPath base name⟩, childPath base name :: dirs)

/-- Modelled from the spec: `cleanup(wt)` recursively removes the
backing directory, failing with an I/O error when the filesystem
operation fails (here: the directory is absent). -/
def wtCleanup (dirs : List String) (wt : WorktreeRef) :
    Except WtError (List String) :=
  if wt.root ∈ dirs then Except.ok (dirs.erase wt.root)
  else Except.error WtError.ioError

/-- Modelled from the spec: the two lifecycle states of a worktree. -/
inductive WtState
  | created
  | cleaned
  deriving DecidableEq

/-- Modelled from the spec: the lifecycle transition relation of a
worktree — `cleanup` is the only transition, from `created` to
`cleaned`. -/
inductive WtStep : WtState → WtState → Prop
  | cleanup : WtStep WtState.created WtState.cleaned

/-! ## Definitions: concurrency model for batch operations -/

/-- A primitive mutation of the IndexState (one micro-step of a batch
operation). -/
abbrev IStep := IndexState → IndexState

/-- Run a list of micro-steps sequentially. -/
def applySteps (st : IndexState) (fs : List IStep) : IndexState :=
  fs.foldl (fun s f => f s) st

/-- Modelled from the spec: an interleaved execution of two threads of
micro-steps.  The schedule says which thread performs each step
(`false` for the first thread, `true` for the second); an execution is
defined only when the schedule consumes both threads exactly. -/
def lockRun : List Bool → List IStep → List IStep → IndexState →
    Option IndexState
  | [], [], [], st => some st
  | false :: sch, f :: as, bs, st => lockRun sch as bs (f st)
  | true :: sch, as, g :: bs, st => lockRun sch as bs (g st)
  | _, _, _, _ => none

/-- Modelled from the spec: the exclusive lock scoped to each batch
operation admits exactly the schedules in which one whole batch runs
before the other — no interleaving inside a batch. -/
def TwoBlock (m n : Nat) (sch : List Bool) : Prop :=
  sch = List.replicate m false ++ List.replicate n true ∨
    sch = List.replicate n true ++ List.replicate m false

/-- The per-path micro-steps a stage batch performs. -/
def stageSteps (ps : List String) : List IStep :=
  ps.map (fun p => fun s => stageOne s p)

/-- The per-path micro-steps an unstage batch performs. -/
def unstageSteps (ps : List String) : List IStep :=
  ps.map (fun p => fun s => unstageOne s p)

/-! ## Definitions: whole-system steps -/

/-- The state of the whole system: the IndexState, the existing files
and directories, and every DiffSpec constructed so far. -/
structure SysState where
  root : String
  index : IndexState
  files : List String
  dirs : List String
  specs : List DiffSpec

/-- The operations of the system as a step relation on `SysState`:
constructing a DiffSpec, successful stage/unstage batches, a (read-only)
diff, and worktree creation/cleanup.  No operation other than
construction ever touches a DiffSpec. -/
inductive SysStep : SysState → SysState → Prop
  | mkSpec (s : SysState) (ps : List String) :
      SysStep s { s with specs := s.specs ++ [⟨ps⟩] }
  | stageOk (s : SysState) (ps : List String) (st : IndexState) :
      stage s.root s.files s.index ps = Except.ok st →
      SysStep s { s with index := st }
  | unstageOk (s : SysState) (ps : List String) (st : IndexState) :
      unstage s.root s.files s.index ps = Except.ok st →
      SysStep s { s with index := st }
  | diffRead (s : SysState) (spec : DiffSpec) : SysStep s s
  | createOk (s : SysState) (base name : String) (r : WorktreeRef)
      (d : List String) :
      wtCreate s.dirs base name = Except.ok (r, d) →
      SysStep s { s with dirs := d }
  | cleanupOk (s : SysState) (w : WorktreeRef) (d : List String) :
      wtCleanup s.dirs w = Except.ok d →
      SysStep s { s with dirs := d }

/-- A concrete initial system state used to instantiate theorems. -/
def sys0 : SysState where
  root := "repo"
  index := fun _ => Status.untracked
  files := ["a"]
  dirs := []
  specs := []

/-! ## Definitions: the declared port interface (from the source) -/

/-- From the source: `DiffResult` carries a human/machine-readable
summary string. -/
structure DiffResult where
  summary : String

/-- From the source: every fallible port operation declares its error
channel as `Result<_, String>` — the error type of the whole interface
is the unstructured `String`. -/
abbrev PortError := String

/-- From the source: the `DiffPort` trait, over an abstract
implementation state `S` (the Rust `&self`). -/
structure DiffPort (S : Type) where
  diff : S → DiffSpec → Except PortError DiffResult

/-- From the source: the `IndexPort` trait. -/
structure IndexPort (S : Type) where
  stage : S → List String → Except PortError Unit
  unstage : S → List String → Except PortError Unit

/-- From the source: the `WorktreePort` trait. -/
structure WorktreePort (S : Type) where
  create : S → String → String → Except PortError WorktreeRef
  cleanup : S → WorktreeRef → Except PortError Unit

/-- From the source: the `SafetyPort` trait. -/
structure SafetyPort (S : Type) where
  normalize_path : S → String → Except PortError String
  is_safe : S → String → Bool

/-! ## Theorems: PathSafety (claim C1) -/

lemma resolveSegs_append (xs ys : List String) :
    ∀ stack, resolveSegs (xs ++ ys) stack
      = (resolveSegs xs stack).bind (fun st => resolveSegs ys st) := by
  induction xs with
  | nil => intro stack; simp [resolveSegs]
  | cons s rest ih =>
    intro stack
    by_cases h1 : s = "." ∨ s = ""
    · simp [resolveSegs, h1, ih]
    · by_cases h2 : s = ".."
      · cases stack with
        | nil => simp [resolveSegs, h1, h2]
        | cons a st => simp [resolveSegs, h1, h2, ih]
      · simp [resolveSegs, h1, h2, ih]

lemma isSafeGo_eq (segs : List String) :
    ∀ stack : List String,
      isSafeGo segs stack.length = (resolveSegs segs stack).isSome := by
  induction segs with
  | nil => intro stack; simp [isSafeGo, resolveSegs]
  | cons s rest ih =>
    intro stack
    by_cases h1 : s = "." ∨ s = ""
    · simp [isSafeGo, resolveSegs, h1, ih]
    · by_cases h2 : s = ".."
      · cases stack with
        | nil => simp [isSafeGo, resolveSegs, h1, h2]
        | cons a st =>
          have h := ih st
          simp [isSafeGo, resolveSegs, h1, h2]
          exact h
      · have h := ih (s :: stack)
        simp [isSafeGo, resolveSegs, h1, h2]
        exact h

lemma is_safe_eq_isSome (root p : String) :
    is_safe root p = (resolveSegs (segsOf p) []).isSome := by
  have h := isSafeGo_eq (segsOf p) []
  simpa [is_safe] using h

/-- Claim C1: for every path containing a `..` segment that would resolve
outside the root, `normalize` fails with `InvalidPath` and `is_safe`
returns `false`; and in general the pure, never-failing predicate
`is_safe` returns `false` for exactly those inputs that `normalize`
rejects. -/
theorem c1_path_safety (root p : String) :
    (EscapesDotdot p →
      normalize root p = Except.error PathError.invalidPath ∧
        is_safe root p = false) ∧
    (is_safe root p = false ↔
      normalize root p = Except.error PathError.invalidPath) := by
  have hiff : is_safe root p = false ↔
      normalize root p = Except.error PathError.invalidPath := by
    have h := is_safe_eq_isSome root p
    cases hres : resolveSegs (segsOf p) [] with
    | none => simp [normalize, hres, h ]
    | some st => simp [normalize, hres, h ]
  refine ⟨?_, hiff⟩
  rintro ⟨pre, post, hsplit, hpre⟩
  have hnone : resolveSegs (segsOf p) [] = none := by
    rw [hsplit, resolveSegs_append, hpre]
    have hdd : ¬((".." : String) = "." ∨ (".." : String) = "") := by decide
    simp [resolveSegs, hdd]
  refine ⟨by simp [normalize, hnone], ?_⟩
  rw [is_safe_eq_isSome, hnone]
  rfl

/-- Concrete instance of claim C1 at root `"repo"` and input `"../x"`. -/
theorem c1_path_safety_witness :
    normalize "repo" "../x" = Except.error PathError.invalidPath ∧
      is_safe "repo" "../x" = false :=
  (c1_path_safety "repo" "../x").1 ⟨[], ["x"], by decide, rfl⟩

/-! ## Theorems: Index (claims C2 and C4) -/

lemma stageAll_apply (ps : List String) :
    ∀ (st : IndexState) (q : String),
      stageAll st ps q = if q ∈ ps then Status.staged else st q := by
  induction ps with
  | nil => intro st q; simp [stageAll]
  | cons p rest ih =>
    intro st q
    have h := ih (stageOne st p) q
    simp only [stageAll, List.foldl_cons] at h ⊢
    rw [h]
    by_cases hq : q ∈ rest
    · simp [hq]
    · by_cases hqp : q = p
      · simp [hq, hqp, stageOne]
      · simp [hq, hqp, stageOne]

lemma unstageAll_apply (ps : List String) :
    ∀ (st : IndexState) (q : String),
      unstageAll st ps q =
        if q ∈ ps then (if st q = Status.staged then Status.unstaged else st q)
        else st q := by
  induction ps with
  | nil => intro st q; simp [unstageAll]
  | cons p rest ih =>
    intro st q
    have h := ih (unstageOne st p) q
    simp only [unstageAll, List.foldl_cons] at h ⊢
    rw [h]
    by_cases hqp : q = p
    · subst hqp
      by_cases hst : st q = Status.staged
      · simp [unstageOne, hst]
      · simp [unstageOne, hst]
    · simp [unstageOne, hqp]

/-- Claim C2: stage and unstage are atomic batch operations — whenever
some path of the batch is unsafe or does not exist, both operations
return an error and the caller's IndexState is left exactly as it was
(all-or-nothing, no partial mutation). -/
theorem c2_batch_atomic (root : String) (fs : List String)
    (st : IndexState) (ps : List String)
    (h : ∃ p ∈ ps, validPath root fs p = false) :
    (∃ e, stage root fs st ps = Except.error e) ∧
      stageRun root fs st ps = st ∧
      (∃ e, unstage root fs st ps = Except.error e) ∧
      unstageRun root fs st ps = st := by
  have hall : ps.all (validPath root fs) = false := by
    rcases h with ⟨p, hp, hbad⟩
    by_contra hcon
    have := List.all_eq_true.mp (eq_true_of_ne_false hcon) p hp
    rw [hbad] at this
    exact Bool.false_ne_true this
  refine ⟨⟨"invalid or missing path in batch", by simp [stage, hall]⟩, ?_,
    ⟨"invalid or missing path in batch", by simp [unstage, hall]⟩, ?_⟩
  · simp [stageRun, stage, hall, Except.toOption]
  · simp [unstageRun, unstage, hall, Except.toOption]

/-- Concrete instance of claim C2: a batch containing the traversal
path `"../evil"` is rejected with no mutation. -/
theorem c2_batch_atomic_witness :
    (∃ e, stage "repo" ["a"] (fun _ => Status.untracked) ["../evil"]
        = Except.error e) ∧
      stageRun "repo" ["a"] (fun _ => Status.untracked) ["../evil"]
        = (fun _ => Status.untracked) ∧
      (∃ e, unstage "repo" ["a"] (fun _ => Status.untracked) ["../evil"]
        = Except.error e) ∧
      unstageRun "repo" ["a"] (fun _ => Status.untracked) ["../evil"]
        = (fun _ => Status.untracked) :=
  c2_batch_atomic "repo" ["a"] (fun _ => Status.untracked) ["../evil"]
    ⟨"../evil", by decide⟩

/-- Counterexample to claim C4 as stated: over the root `"r"` with the
single existing file `"a"` and a starting state in which `"a"` is
`staged`, staging then unstaging the valid batch `["a"]` leaves `"a"`
`unstaged`, not the pre-stage classification `staged`. -/
theorem c4_roundtrip_counterexample :
    unstageRun "r" ["a"]
        (stageRun "r" ["a"]
          (fun q => if q = "a" then Status.staged else Status.untracked)
          ["a"])
        ["a"] "a"
      ≠ (fun q => if q = "a" then Status.staged else Status.untracked) "a" := by
  decide

/-- Claim C4 (amended): for every valid batch, stage followed by unstage
of the same batch marks every batch path `unstaged` and leaves every
other path untouched; consequently the round trip restores the
pre-stage IndexState exactly when every batch path was classified
`unstaged` before staging. -/
theorem c4_roundtrip_amended (root : String) (fs : List String)
    (st : IndexState) (ps : List String)
    (hv : ps.all (validPath root fs) = true) :
    (∀ q, unstageRun root fs (stageRun root fs st ps) ps q
        = if q ∈ ps then Status.unstaged else st q) ∧
      ((∀ p ∈ ps, st p = Status.unstaged) →
        unstageRun root fs (stageRun root fs st ps) ps = st) := by
  have hstage : stageRun root fs st ps = stageAll st ps := by
    simp [stageRun, stage, hv, Except.toOption]
  have hun : unstageRun root fs (stageAll st ps) ps
      = unstageAll (stageAll st ps) ps := by
    simp [unstageRun, unstage, hv, Except.toOption]
  have hpt : ∀ q, unstageRun root fs (stageRun root fs st ps) ps q
      = if q ∈ ps then Status.unstaged else st q := by
    intro q
    rw [hstage, hun, unstageAll_apply, stageAll_apply]
    by_cases hq : q ∈ ps
    · simp [hq]
    · simp [hq]
  refine ⟨hpt, fun hpre => funext fun q => ?_⟩
  rw [hpt q]
  by_cases hq : q ∈ ps
  · rw [if_pos hq, hpre q hq]
  · rw [if_neg hq]

/-- Concrete instance of the amended claim C4: round trip over the batch
`["a"]` from a state in which `"a"` is unstaged restores the state. -/
theorem c4_roundtrip_witness :
    unstageRun "r" ["a"]
        (stageRun "r" ["a"]
          (fun q => if q = "a" then Status.unstaged else Status.untracked)
          ["a"])
        ["a"]
      = (fun q => if q = "a" then Status.unstaged else Status.untracked) :=
  (c4_roundtrip_amended "r" ["a"]
      (fun q => if q = "a" then Status.unstaged else Status.untracked)
      ["a"] (by decide)).2 (by decide)

/-! ## Theorems: DiffEngine (claim C3) -/

lemma filterMap_classify_fst (f : String → Option Change) :
    ∀ l : List String,
      List.Sublist
        ((l.filterMap (fun p => (f p).map (fun k => (p, k)))).map Prod.fst)
        l := by
  intro l
  induction l with
  | nil => simp
  | cons p rest ih =>
    cases hf : f p with
    | none =>
      simpa [List.filterMap_cons, hf] using ih.cons p
    | some k =>
      simpa [List.filterMap_cons, hf] using ih.cons₂ p

/-- Claim C3: every successful diff enumerates, per listed path, exactly
one definite change kind — the path's classification, with Unchanged
entries omitted — and the entries are sorted lexicographically by
normalized path with no duplicate path entries; moreover diff of the
empty spec always succeeds, over all tracked paths. -/
theorem c3_diff_sorted :
    (∀ (eng : DiffEngine) (spec : DiffSpec) (res : List (String × Change)),
      diff eng spec = Except.ok res →
        (res.map Prod.fst).Sorted (· ≤ ·) ∧
          (res.map Prod.fst).Nodup ∧
          (∀ pr ∈ res, classify eng pr.1 = some pr.2)) ∧
    (∀ eng : DiffEngine, ∃ res, diff eng ⟨[]⟩ = Except.ok res) := by
  constructor
  · intro eng spec res h
    rcases hts : (if spec.paths = [] then Except.ok eng.tracked
        else normalizeAll eng.root spec.paths) with e | ts
    · rw [diff, hts] at h
      exact absurd h (by simp)
    · rw [diff, hts] at h
      have hres : res = ((ts.dedup).insertionSort (· ≤ ·)).filterMap
          (fun p => (classify eng p).map (fun k => (p, k))) := by
        exact (Except.ok.injEq _ _).mp h.symm
      subst hres
      have hsorted : ((ts.dedup).insertionSort (· ≤ ·)).Sorted (· ≤ ·) :=
        List.sorted_insertionSort _ _
      have hnodup : ((ts.dedup).insertionSort (· ≤ ·)).Nodup :=
        ((List.perm_insertionSort _ _).nodup_iff).mpr (List.nodup_dedup _)
      have hsub := filterMap_classify_fst (classify eng)
        ((ts.dedup).insertionSort (· ≤ ·))
      refine ⟨hsorted.sublist hsub, hnodup.sublist hsub, ?_⟩
      intro pr hpr
      rcases List.mem_filterMap.mp hpr with ⟨a, _, ha⟩
      rcases Option.map_eq_some'.mp ha with ⟨k, hk, hak⟩
      rw [← hak]
      exact hk
  · intro eng
    exact ⟨_, rfl⟩

/-- Concrete instance of claim C3: the empty-spec diff of the engine
`engW` returns the modified `a.txt` and added `b.txt`, sorted and
duplicate-free. -/
theorem c3_diff_sorted_witness :
    (([("a.txt", Change.modified), ("b.txt", Change.added)].map
        Prod.fst).Sorted (· ≤ ·) ∧
      ([("a.txt", Change.modified), ("b.txt", Change.added)].map
        Prod.fst).Nodup ∧
      (∀ pr ∈ [("a.txt", Change.modified), ("b.txt", Change.added)],
        classify engW pr.1 = some pr.2)) :=
  c3_diff_sorted.1 engW ⟨[]⟩
    [("a.txt", Change.modified), ("b.txt", Change.added)]
    (by with_unfolding_all rfl)

/-! ## Theorems: WorktreeManager (claims C5 and C6) -/

/-- Claim C5: `create` fails with `NameInvalid` on a malformed name,
fails with `AlreadyExists` when the target directory is already
present, and on success returns an exclusive reference rooted at the
created directory — so that an immediately repeated `create` with the
same base and name fails with `AlreadyExists`. -/
theorem c5_worktree_create (dirs : List String) (base name : String) :
    (nameOk name = false →
      wtCreate dirs base name = Except.error WtError.nameInvalid) ∧
    (nameOk name = true → childPath base name ∈ dirs →
      wtCreate dirs base name = Except.error WtError.alreadyExists) ∧
    (∀ r d, wtCreate dirs base name = Except.ok (r, d) →
      r.root = childPath base name ∧ childPath base name ∈ d ∧
        wtCreate d base name = Except.error WtError.alreadyExists) := by
  refine ⟨?_, ?_, ?_⟩
  · intro h
    simp [wtCreate, h]
  · intro hn hmem
    simp [wtCreate, hn, hmem]
  · intro r d h
    by_cases h1 : nameOk name = false
    · simp [wtCreate, h1] at h
    · by_cases h2 : childPath base name ∈ dirs
      · simp [wtCreate, h1, h2] at h
      · by_cases h3 : is_safe base base = false
        · simp [wtCreate, h1, h2, h3] at h
        · simp [wtCreate, h1, h2, h3] at h
          obtain ⟨hr, hd⟩ := h
          subst hd
          exact ⟨by rw [← hr], List.mem_cons_self _ _,
            by simp [wtCreate, h1]⟩

/-- Concrete instance of claim C5: creating `"x"` under `"repo"` twice
makes the second call fail with `AlreadyExists`. -/
theorem c5_worktree_create_witness :
    WorktreeRef.root ⟨"repo/x"⟩ = childPath "repo" "x" ∧
      childPath "repo" "x" ∈ ["repo/x"] ∧
      wtCreate ["repo/x"] "repo" "x" = Except.error WtError.alreadyExists :=
  (c5_worktree_create [] "repo" "x").2.2 ⟨"repo/x"⟩ ["repo/x"]
    (by with_unfolding_all rfl)

/-- Claim C6: a worktree has exactly the two states `created` and
`cleaned`; the only transition is `created` to `cleaned`, triggered by
cleanup; there is no transition out of `cleaned`, so a consumed
reference never takes part in any further lifecycle operation. -/
theorem c6_worktree_lifecycle :
    (∀ s : WtState, s = WtState.created ∨ s = WtState.cleaned) ∧
    (∀ s t : WtState, WtStep s t →
      s = WtState.created ∧ t = WtState.cleaned) ∧
    (∀ t : WtState, ¬ WtStep WtState.cleaned t) ∧
    (∀ t : WtState, Relation.ReflTransGen WtStep WtState.cleaned t →
      t = WtState.cleaned) := by
  refine ⟨?_, ?_, ?_, ?_⟩
  · intro s
    cases s
    · exact Or.inl rfl
    · exact Or.inr rfl
  · intro s t h
    cases h
    exact ⟨rfl, rfl⟩
  · intro t h
    cases h
  · intro t h
    induction h with
    | refl => rfl
    | tail hb hbc ih =>
      rw [ih] at hbc
      cases hbc

/-- Concrete instance of claim C6 at the single cleanup transition. -/
theorem c6_worktree_lifecycle_witness :
    WtState.created = WtState.created ∧ WtState.cleaned = WtState.cleaned :=
  c6_worktree_lifecycle.2.1 WtState.created WtState.cleaned WtStep.cleanup

/-! ## Theorems: concurrency of batch operations (claim C7) -/

lemma lockRun_falseBlock (as : List IStep) :
    ∀ (bs : List IStep) (sch : List Bool) (st : IndexState),
      lockRun (List.replicate as.length false ++ sch) as bs st
        = lockRun sch [] bs (applySteps st as) := by
  induction as with
  | nil =>
    intro bs sch st
    simp [applySteps]
  | cons f rest ih =>
    intro bs sch st
    have hstep :
        lockRun (List.replicate (f :: rest).length false ++ sch)
            (f :: rest) bs st
          = lockRun (List.replicate rest.length false ++ sch) rest bs (f st) := by
      simp [List.replicate_succ, lockRun]
    rw [hstep, ih bs sch (f st)]
    rfl

lemma lockRun_trueBlock (bs : List IStep) :
    ∀ (as : List IStep) (sch : List Bool) (st : IndexState),
      lockRun (List.replicate bs.length true ++ sch) as bs st
        = lockRun sch as [] (applySteps st bs) := by
  induction bs with
  | nil =>
    intro as sch st
    simp [applySteps]
  | cons g rest ih =>
    intro as sch st
    have hstep :
        lockRun (List.replicate (g :: rest).length true ++ sch)
            as (g :: rest) st
          = lockRun (List.replicate rest.length true ++ sch) as rest (g st) := by
      simp [List.replicate_succ, lockRun]
    rw [hstep, ih as sch (g st)]
    rfl

lemma lockRun_serial (as bs : List IStep) (st : IndexState) :
    lockRun (List.replicate as.length false ++ List.replicate bs.length true)
        as bs st
      = some (applySteps (applySteps st as) bs) := by
  rw [lockRun_falseBlock]
  have h := lockRun_trueBlock bs [] [] (applySteps st as)
  simpa using h

lemma lockRun_serial_rev (as bs : List IStep) (st : IndexState) :
    lockRun (List.replicate bs.length true ++ List.replicate as.length false)
        as bs st
      = some (applySteps (applySteps st bs) as) := by
  rw [lockRun_trueBlock]
  have h := lockRun_falseBlock as [] [] (applySteps st bs)
  simpa using h

lemma applySteps_stage (st : IndexState) (ps : List String) :
    applySteps st (stageSteps ps) = stageAll st ps := by
  simp [applySteps, stageSteps, stageAll, List.foldl_map]

lemma applySteps_unstage (st : IndexState) (ps : List String) :
    applySteps st (unstageSteps ps) = unstageAll st ps := by
  simp [applySteps, unstageSteps, unstageAll, List.foldl_map]

/-- Claim C7: under the exclusive per-batch lock (admitting exactly the
two-block schedules), every concurrent execution of a stage batch and an
unstage batch over valid paths completes and leaves the IndexState in a
state consistent with exactly one total order of the two calls — no torn
state. -/
theorem c7_linearizable (root : String) (fs : List String)
    (ps qs : List String) (st : IndexState) (sch : List Bool)
    (hps : ps.all (validPath root fs) = true)
    (hqs : qs.all (validPath root fs) = true)
    (hsch : TwoBlock ps.length qs.length sch) :
    lockRun sch (stageSteps ps) (unstageSteps qs) st
        = some (unstageRun root fs (stageRun root fs st ps) qs) ∨
      lockRun sch (stageSteps ps) (unstageSteps qs) st
        = some (stageRun root fs (unstageRun root fs st qs) ps) := by
  have hlen1 : ps.length = (stageSteps ps).length := by simp [stageSteps]
  have hlen2 : qs.length = (unstageSteps qs).length := by simp [unstageSteps]
  have hsr : ∀ s : IndexState, stageRun root fs s ps = stageAll s ps := by
    intro s
    simp [stageRun, stage, hps, Except.toOption]
  have hur : ∀ s : IndexState, unstageRun root fs s qs = unstageAll s qs := by
    intro s
    simp [unstageRun, unstage, hqs, Except.toOption]
  rcases hsch with h | h
  · left
    rw [h, hlen1, hlen2, lockRun_serial, applySteps_stage, applySteps_unstage,
      hsr, hur]
  · right
    rw [h, hlen1, hlen2, lockRun_serial_rev, applySteps_unstage,
      applySteps_stage, hsr, hur]

/-- Concrete instance of claim C7: concurrent `stage(["a"])` and
`unstage(["a"])` under the two-block schedule `[false, true]`. -/
theorem c7_linearizable_witness :
    lockRun [false, true] (stageSteps ["a"]) (unstageSteps ["a"])
        (fun _ => Status.untracked)
        = some (unstageRun "repo" ["a"]
            (stageRun "repo" ["a"] (fun _ => Status.untracked) ["a"]) ["a"]) ∨
      lockRun [false, true] (stageSteps ["a"]) (unstageSteps ["a"])
        (fun _ => Status.untracked)
        = some (stageRun "repo" ["a"]
            (unstageRun "repo" ["a"] (fun _ => Status.untracked) ["a"]) ["a"]) :=
  c7_linearizable "repo" ["a"] ["a"] ["a"] (fun _ => Status.untracked)
    [false, true] (by decide) (by decide) (Or.inl rfl)

/-! ## Theorems: DiffSpec immutability (claim C8) -/

/-- Claim C8: a DiffSpec is immutable once constructed — every system
operation leaves every previously constructed DiffSpec, and the ordered
sequence of paths it holds, exactly as it was (new specs are only ever
appended). -/
theorem c8_diffspec_immutable (s t : SysState) (h : SysStep s t) :
    ∃ u, t.specs = s.specs ++ u := by
  cases h with
  | mkSpec ps => exact ⟨[⟨ps⟩], rfl⟩
  | stageOk ps st _ => exact ⟨[], (List.append_nil _).symm⟩
  | unstageOk ps st _ => exact ⟨[], (List.append_nil _).symm⟩
  | diffRead spec => exact ⟨[], (List.append_nil _).symm⟩
  | createOk base name r d _ => exact ⟨[], (List.append_nil _).symm⟩
  | cleanupOk w d _ => exact ⟨[], (List.append_nil _).symm⟩

/-- Concrete instance of claim C8 at a spec-construction step from the
initial system state. -/
theorem c8_diffspec_immutable_witness :
    ∃ u, ({ sys0 with specs := sys0.specs ++ [⟨["a"]⟩] } : SysState).specs
        = sys0.specs ++ u :=
  c8_diffspec_immutable sys0 _ (SysStep.mkSpec sys0 ["a"])

/-! ## Theorems: the declared interface (claims C9 and C10) -/

/-- Claim C9: possession of a WorktreeRef does not imply it came from
`create` — for any path whatsoever a caller can construct a WorktreeRef
directly, and a WorktreeRef carries no state beyond its public root
field (no validity witness), so exclusivity and post-cleanup invalidity
are not enforced by the interface's types. -/
theorem c9_worktreeref_forgeable :
    (∀ p : String, ∃ w : WorktreeRef, w.root = p) ∧
      (∀ w : WorktreeRef, w = ⟨w.root⟩) :=
  ⟨fun p => ⟨⟨p⟩, rfl⟩, fun w => rfl⟩

/-- Claim C10: every fallible operation of every declared port returns
its error through the single unstructured type `PortError`, which is
exactly `String`; two error values are equal precisely when their
character data agree, so distinct error conditions are distinguishable
only by string contents. -/
theorem c10_error_strings :
    PortError = String ∧ (∀ e f : PortError, e = f ↔ e.data = f.data) := by
  refine ⟨rfl, fun e f => ?_⟩
  constructor
  · intro h
    rw [h]
  · intro h
    cases e
    cases f
    exact congrArg String.mk h

/-- Concrete instance of claim C10: the error reports `"InvalidPath"`
and `"NotFound"` are told apart only by their character data. -/
theorem c10_error_strings_witness :
    (("InvalidPath" : PortError) = ("NotFound" : PortError)) ↔
      ("InvalidPath" : PortError).data = ("NotFound" : PortError).data :=
  c10_error_strings.2 "InvalidPath" "NotFound"

end TrueModules
